import Mathlib

/-!
Shallow embedding of the nrfxlib Rust crate (nRF9160 modem library wrapper),
covering the allocator callbacks and IPC dispatch in `src/ffi.rs`, the raw
socket layer in `src/raw.rs`, the AT command response loop in `src/at.rs`,
and the GNSS frame decoder in `src/gnss.rs`.
-/

namespace Nrfxlib

/-! ## Allocator callbacks (`src/ffi.rs`, `nrf_modem_os_alloc` / `nrf_modem_os_free`)

`nrf_modem_os_alloc(num_bytes)` builds a `Layout` of size `num_bytes +
size_of::<usize>()` aligned to `size_of::<usize>()`, asks the first-fit heap
for a block of that layout, stores a size value in the first word of the
block, and hands out `block + size_of::<usize>()`.  `nrf_modem_os_free(ptr)`
reads the stored word back from `ptr - size_of::<usize>()` and rebuilds the
layout it passes to `deallocate` from it.  The target (Cortex-M33) has
4-byte `usize`. -/

/-- `core::mem::size_of::<usize>()` on the nRF9160 target (32-bit). -/
def usize_size : Nat := 4

/-- A Rust `core::alloc::Layout`: a size and an alignment, as passed to
`allocate_first_fit` and `deallocate`. -/
structure LayoutM where
  size : Nat
  align : Nat
  deriving DecidableEq, Repr

/-- The layout `nrf_modem_os_alloc` requests from `allocate_first_fit`:
`Layout::from_size_align_unchecked(num_bytes + usize_size, usize_size)`. -/
def nrf_modem_os_alloc_layout (num_bytes : Nat) : LayoutM :=
  ⟨num_bytes + usize_size, usize_size⟩

/-- The value `nrf_modem_os_alloc` writes into the header word at the start
of the allocated block: `core::ptr::write_volatile::<usize>(block.as_ptr(),
num_bytes)` — the caller-requested byte count. -/
def nrf_modem_os_alloc_header (num_bytes : Nat) : Nat := num_bytes

/-- The layout `nrf_modem_os_free` rebuilds from the stored header word:
`Layout::from_size_align_unchecked(num_bytes, usize_size)` where `num_bytes`
is the word read back from `ptr - usize_size`. -/
def nrf_modem_os_free_layout (stored : Nat) : LayoutM :=
  ⟨stored, usize_size⟩

/-! ## IPC interrupt dispatch (`src/ffi.rs`, `ipc_irq_handler`)

```text
let events_map = INTPEND.read();
let mut bitmask = events_map;
while bitmask != 0 {
    let event_idx = bitmask.trailing_zeros();
    bitmask ^= 1 << event_idx;
    EVENTS_RECEIVE[event_idx].write(0);
}
(handler)(events_map, context);
```
-/

/-- `u32::trailing_zeros` restricted to nonzero inputs (`trailing_zeros` is
only called on a nonzero `bitmask` in `ipc_irq_handler`; we let `tz 0 = 0`). -/
def tz (m : Nat) : Nat :=
  if m = 0 then 0
  else if m % 2 = 1 then 0
  else tz (m / 2) + 1
  termination_by m
  decreasing_by omega

/-- The sequence of event indices cleared by the `while bitmask != 0` loop,
in execution order.  The loop strictly decreases `bitmask` (it removes the
lowest set bit each iteration), so `m` itself is enough fuel; `clearSeq`
below instantiates the fuel. -/
def clearSeqFuel : Nat → Nat → List Nat
  | 0, _ => []
  | fuel + 1, m =>
    if m = 0 then []
    else tz m :: clearSeqFuel fuel (m ^^^ (1 <<< tz m))

/-- Indices cleared by `ipc_irq_handler`'s while-loop for pending mask `m`. -/
def clearSeq (m : Nat) : List Nat := clearSeqFuel m m

/-- Observable actions of `ipc_irq_handler`: a write of 0 to
`EVENTS_RECEIVE[i]`, or the single call of the registered handler. -/
inductive IpcAction where
  | clearEvent (i : Nat)
  | callHandler (mask : Nat) (ctx : Nat)
  deriving DecidableEq, Repr

/-- Is this action the handler invocation? -/
def IpcAction.isCall : IpcAction → Bool
  | .callHandler _ _ => true
  | _ => false

/-- Trace of `ipc_irq_handler` given the pending-event mask read from
`INTPEND` and the stored context pointer: clear every set bit (lowest
first), then invoke the registered handler once with the full mask. -/
def ipc_irq_handler (events_map : Nat) (context : Nat) : List IpcAction :=
  (clearSeq events_map).map IpcAction.clearEvent
    ++ [IpcAction.callHandler events_map context]

/-! ## Error types (`src/lib.rs`) -/

/-- `AtError` from `src/lib.rs`. -/
inductive AtErrorM where
  | error
  | cmeError (n : Int)
  | cmsError (n : Int)
  deriving DecidableEq, Repr

/-- `Error` from `src/lib.rs`. -/
inductive ErrorM where
  | nordic (op : String) (ret : Int) (errno : Int)
  | atError (e : AtErrorM)
  | badDataFormat
  | hostnameTooLong
  | unrecognisedValue
  | writeError
  | tooManySockets
  deriving DecidableEq, Repr

/-- The backend's "try again" sentinel `NRF_EAGAIN` (defined in the external
`nrfxlib-sys` crate; the concrete value is opaque to this crate, which only
compares it for equality). -/
def NRF_EAGAIN : Int := 11

/-! ## `Socket::recv` (`src/raw.rs`)

```text
let result = nrf_recv(fd, ptr, len, NRF_MSG_DONTWAIT);
if result == -1 && get_last_error() == NRF_EAGAIN as i32 { Ok(None) }
else if result < 0 { Err(Error::Nordic("recv", result, get_last_error())) }
else { Ok(Some(result as usize)) }
```
The backend call is modelled by its observables: the returned count and the
last-error value it left behind. -/

/-- `Socket::recv` outcome as a function of the backend `nrf_recv` return
value and of `get_last_error()`. -/
def socket_recv (result : Int) (lastError : Int) : Except ErrorM (Option Int) :=
  if result = -1 ∧ lastError = NRF_EAGAIN then .ok none
  else if result < 0 then .error (.nordic "recv" result lastError)
  else .ok (some result)

/-! ## `poll` (`src/raw.rs`) -/

/-- Fixed capacity of the `poll_fds` staging array. -/
def MAX_SOCKETS_POLL : Nat := 8

/-- One `PollEntry`: the socket's fd, the requested flags, and the stored
`PollResult` (a `u32`, here a `Nat`). -/
structure PollEntryM where
  fd : Int
  flags : Int
  result : Nat
  deriving DecidableEq, Repr

/-- The observables of one `nrf_poll` backend call: its return value and the
`returned` event-mask field (an `i16`) it wrote into `poll_fds[i]` for each
polled index `i`. -/
structure NrfPollBackend where
  ret : Int
  returned : Nat → Int

/-- The copy-back loop: `poll_entry.result = PollResult(pollfd.returned as
u32)` for each entry, in order, zipping entries with the backend-filled
`poll_fds` (the `i16 as u32` cast sign-extends, hence the `% 2 ^ 32`). -/
def copyResults (entries : List PollEntryM) (returned : Nat → Int) (i : Nat) :
    List PollEntryM :=
  match entries with
  | [] => []
  | e :: es =>
    { e with result := ((returned i) % (2 ^ 32 : Int)).toNat } :: copyResults es returned (i + 1)

/-- `poll(poll_list, timeout_ms)`: result, final poll list, and how many
times the backend `nrf_poll` was invoked.  Mirrors:
length check against `MAX_SOCKETS_POLL`, then match on the backend result
(`-1` → error with last errno, `0` → `Ok(0)`, `n` → copy back and `Ok(n)`). -/
def poll (poll_list : List PollEntryM) (backend : NrfPollBackend)
    (lastError : Int) : (Except ErrorM Int) × List PollEntryM × Nat :=
  if poll_list.length > MAX_SOCKETS_POLL then
    (.error .tooManySockets, poll_list, 0)
  else if backend.ret = -1 then
    (.error (.nordic "poll" (-1) lastError), poll_list, 1)
  else if backend.ret = 0 then
    (.ok 0, poll_list, 1)
  else
    (.ok backend.ret, copyResults poll_list backend.returned 0, 1)

/-! ## AT response loop (`src/at.rs`, `AtSocket::poll_response`)

Buffers are modelled by their character content (the code converts the
received bytes with `core::str::from_utf8_unchecked`; AT traffic is ASCII).
-/

/-- The ASCII fragment of Rust's `char::is_whitespace` (Unicode
`White_Space`); AT response lines only contain ASCII. -/
def isRustWhitespace (c : Char) : Bool :=
  c = ' ' ∨ c = '\t' ∨ c = '\n' ∨ c = '\r' ∨ c = '\x0b' ∨ c = '\x0c'

/-- `str::trim`: drop whitespace from both ends. -/
def rustTrim (l : List Char) : List Char :=
  ((l.dropWhile isRustWhitespace).reverse.dropWhile isRustWhitespace).reverse

/-- Split on `'\n'`, keeping empty pieces (`str::split('\n')` semantics);
the result is always nonempty. -/
def splitOnNl : List Char → List (List Char)
  | [] => [[]]
  | c :: rest =>
    let ps := splitOnNl rest
    if c = '\n' then [] :: ps
    else
      match ps with
      | p :: ps' => (c :: p) :: ps'
      | [] => [[c]]

/-- Drop one trailing `'\r'`, if present (the `\r\n` line-ending case). -/
def stripTrailingCr (l : List Char) : List Char :=
  if l.getLast? = some '\r' then l.dropLast else l

/-- `str::lines`: split at `'\n'` terminators (a trailing terminator does
not produce a final empty line) and strip a `'\r'` preceding each `'\n'`.
(Rust keeps a bare `'\r'` at the very end of an unterminated final line;
`poll_response` trims every line before use, which erases the difference.) -/
def rustLines (s : List Char) : List (List Char) :=
  let ps := splitOnNl s
  (if ps.getLast? = some [] then ps.dropLast else ps).map stripTrailingCr

/-- Digit-string accumulator for `str::parse::<i32>`: `none` unless every
character is an ASCII digit. -/
def digitsValGo (acc : Nat) : List Char → Option Nat
  | [] => some acc
  | c :: rest =>
    if c.isDigit then digitsValGo (acc * 10 + (c.toNat - '0'.toNat)) rest
    else none

/-- `str::parse::<i32>`: an optional sign followed by at least one digit,
all digits, with the value inside the `i32` range; anything else is a parse
error (`none`). -/
def parse_i32 (s : List Char) : Option Int :=
  match s with
  | [] => none
  | '+' :: rest =>
    if rest = [] then none
    else (digitsValGo 0 rest).bind fun v =>
      if v ≤ 2 ^ 31 - 1 then some (v : Int) else none
  | '-' :: rest =>
    if rest = [] then none
    else (digitsValGo 0 rest).bind fun v =>
      if v ≤ 2 ^ 31 then some (-(v : Int)) else none
  | _ =>
    (digitsValGo 0 s).bind fun v =>
      if v ≤ 2 ^ 31 - 1 then some (v : Int) else none

/-- `"OK"`. -/
def okChars : List Char := "OK".toList

/-- `"ERROR"`. -/
def errorChars : List Char := "ERROR".toList

/-- `"+CME ERROR:"` (11 characters). -/
def cmeTag : List Char := "+CME ERROR:".toList

/-- `"+CMS ERROR:"` (11 characters). -/
def cmsTag : List Char := "+CMS ERROR:".toList

/-- How `poll_response`'s `match line` classifies one trimmed line. -/
inductive LineClass where
  | okL
  | errL
  | cmeL (n : Int)
  | cmsL (n : Int)
  | ind
  deriving DecidableEq, Repr

/-- Is this class the "anything else" (indication) arm? -/
def LineClass.isInd : LineClass → Bool
  | .ind => true
  | _ => false

/-- Terminal result carried by a non-indication class (`.ind` is mapped to
a dummy success; it is never used on that constructor). -/
def LineClass.terminal : LineClass → Except AtErrorM Unit
  | .okL => .ok ()
  | .errL => .error .error
  | .cmeL n => .error (.cmeError n)
  | .cmsL n => .error (.cmsError n)
  | .ind => .ok ()

/-- The `match line { ... }` in `poll_response`, on an already-trimmed line:
exact `"OK"`, exact `"ERROR"`, prefix `"+CME ERROR:"` (sub-code =
`line[11..].trim().parse().unwrap_or(-1)`), prefix `"+CMS ERROR:"` (same),
otherwise an indication handed to the callback. -/
def classify_line (line : List Char) : LineClass :=
  if line = okChars then .okL
  else if line = errorChars then .errL
  else if cmeTag.isPrefixOf line then
    .cmeL ((parse_i32 (rustTrim (line.drop 11))).getD (-1))
  else if cmsTag.isPrefixOf line then
    .cmsL ((parse_i32 (rustTrim (line.drop 11))).getD (-1))
  else .ind

/-- The `for line in s.lines()` loop body over one buffer: returns the
terminal outcome (if one was reached, which breaks the loop) and the
trimmed lines passed to `callback_function`, in call order. -/
def processLines : List (List Char) → Option (Except AtErrorM Unit) × List (List Char)
  | [] => (none, [])
  | l :: ls =>
    let t := rustTrim l
    match classify_line t with
    | .okL => (some (.ok ()), [])
    | .errL => (some (.error .error), [])
    | .cmeL n => (some (.error (.cmeError n)), [])
    | .cmsL n => (some (.error (.cmsError n)), [])
    | .ind =>
      let r := processLines ls
      (r.1, t :: r.2)

/-- One result of `self.recv(&mut buf)?` inside the inner loop: would-block
(`Ok(None)`, i.e. EAGAIN), data (`Ok(Some(n))`, carrying the `n` bytes
written into the start of the buffer), or a propagated error. -/
inductive RecvOut where
  | eagain
  | data (bytes : List Char)
  | fail (e : ErrorM)
  deriving DecidableEq, Repr

/-- Result of running `poll_response` against a finite sequence of recv
results; `calls` is the list of trimmed lines passed to the callback so
far.  `panicked` models the `&buf[0..length - 1]` index underflow when a
read returns zero bytes; `outOfReads` means the loop is still running when
the supplied read sequence is exhausted. -/
inductive PollOutcome where
  | success (calls : List (List Char))
  | failure (e : AtErrorM) (calls : List (List Char))
  | recvError (e : ErrorM) (calls : List (List Char))
  | panicked (calls : List (List Char))
  | outOfReads (calls : List (List Char))
  deriving DecidableEq, Repr

/-- Did `poll_response` return `Ok(())`? -/
def PollOutcome.isSuccess : PollOutcome → Bool
  | .success _ => true
  | _ => false

/-- `AtSocket::poll_response`, driven by a finite list of recv results.
Each outer-loop iteration starts from a fresh `buf`, takes the next
non-EAGAIN read, forms `s = &buf[0..length - 1]` (dropping the final byte),
splits `s` into lines, and processes them; a terminal line ends the loop,
otherwise the next read is awaited with only the callback history carried
over. -/
def poll_response : List RecvOut → List (List Char) → PollOutcome
  | [], calls => .outOfReads calls
  | .eagain :: rest, calls => poll_response rest calls
  | .fail e :: _, calls => .recvError e calls
  | .data bytes :: rest, calls =>
    if bytes.length = 0 then .panicked calls
    else
      match processLines (rustLines (bytes.take (bytes.length - 1))) with
      | (some (.ok ()), cs) => .success (calls ++ cs)
      | (some (.error e), cs) => .failure e (calls ++ cs)
      | (none, cs) => poll_response rest (calls ++ cs)

/-! ## GNSS frame decoding (`src/gnss.rs`) -/

/-- `NRF_GNSS_PVT_DATA_ID` (external `nrfxlib-sys` constant; the crate only
compares discriminants for equality, so only distinctness matters). -/
def NRF_GNSS_PVT_DATA_ID : Nat := 1

/-- `NRF_GNSS_NMEA_DATA_ID` (external `nrfxlib-sys` constant). -/
def NRF_GNSS_NMEA_DATA_ID : Nat := 2

/-- `NRF_GNSS_AGPS_DATA_ID` (external `nrfxlib-sys` constant). -/
def NRF_GNSS_AGPS_DATA_ID : Nat := 3

/-- `NRF_GNSS_PVT_FLAG_FIX_VALID_BIT` (external `nrfxlib-sys` constant):
the fix-valid bit in the PVT frame's `flags` byte. -/
def NRF_GNSS_PVT_FLAG_FIX_VALID_BIT : Nat := 1

/-- `nrf_gnss_pvt_data_frame_t`: only the `flags` byte is inspected by this
crate; the remaining fixed-layout fields are copied wholesale and modelled
abstractly. -/
structure PvtDataFrame where
  flags : Nat
  restBytes : Nat
  deriving DecidableEq, Repr

/-- `nrf_gnss_agps_data_frame_t`: copied wholesale, never inspected;
modelled abstractly. -/
structure AgpsDataFrame where
  raw : Nat
  deriving DecidableEq, Repr

/-- `nrf_gnss_data_frame_t`: a `data_id` discriminant over a C union of the
three payloads.  The union is modelled as a product; the decoder reads only
the field selected by `data_id`.  `nmea` is the fixed 83-byte text field. -/
structure GnssDataFrame where
  data_id : Nat
  pvt : PvtDataFrame
  nmea : List Nat
  agps : AgpsDataFrame
  deriving DecidableEq, Repr

/-- `GnssData` from `src/gnss.rs`. -/
inductive GnssDataM where
  | nmea (buffer : List Nat) (length : Nat)
  | position (p : PvtDataFrame)
  | agps (a : AgpsDataFrame)
  deriving DecidableEq, Repr

/-- Is this byte a NMEA terminator (`b'\0'`, `b'\r'`, `b'\n'`)? -/
def isNmeaTerminator (b : Nat) : Bool := b == 0 || b == 13 || b == 10

/-- A UTF-8 continuation byte `0x80..=0xBF`. -/
def isUtf8Cont (b : Nat) : Bool := 0x80 ≤ b && b ≤ 0xBF

/-- Minimal UTF-8 validity check equivalent to `core::str::from_utf8`
(RFC 3629: no overlong forms, no surrogates, max `U+10FFFF`). -/
def validUtf8 : List Nat → Bool
  | [] => true
  | b :: rest =>
    if b < 0x80 then validUtf8 rest
    else if 0xC2 ≤ b ∧ b ≤ 0xDF then
      match rest with
      | c1 :: r => isUtf8Cont c1 && validUtf8 r
      | [] => false
    else if b = 0xE0 then
      match rest with
      | c1 :: c2 :: r => (0xA0 ≤ c1 && c1 ≤ 0xBF) && isUtf8Cont c2 && validUtf8 r
      | _ => false
    else if (0xE1 ≤ b ∧ b ≤ 0xEC) ∨ b = 0xEE ∨ b = 0xEF then
      match rest with
      | c1 :: c2 :: r => isUtf8Cont c1 && isUtf8Cont c2 && validUtf8 r
      | _ => false
    else if b = 0xED then
      match rest with
      | c1 :: c2 :: r => (0x80 ≤ c1 && c1 ≤ 0x9F) && isUtf8Cont c2 && validUtf8 r
      | _ => false
    else if b = 0xF0 then
      match rest with
      | c1 :: c2 :: c3 :: r =>
        (0x90 ≤ c1 && c1 ≤ 0xBF) && isUtf8Cont c2 && isUtf8Cont c3 && validUtf8 r
      | _ => false
    else if 0xF1 ≤ b ∧ b ≤ 0xF3 then
      match rest with
      | c1 :: c2 :: c3 :: r =>
        isUtf8Cont c1 && isUtf8Cont c2 && isUtf8Cont c3 && validUtf8 r
      | _ => false
    else if b = 0xF4 then
      match rest with
      | c1 :: c2 :: c3 :: r =>
        (0x80 ≤ c1 && c1 ≤ 0x8F) && isUtf8Cont c2 && isUtf8Cont c3 && validUtf8 r
      | _ => false
    else false

/-- The `.iter().enumerate().find(|x| x.1 == b'\0' || x.1 == b'\r' || x.1 ==
b'\n').map(|x| x.0)` scan: index (counted from `i`) of the first terminator
byte, if any. -/
def nmeaFindTerm (l : List Nat) (i : Nat) : Option Nat :=
  match l with
  | [] => none
  | b :: rest => if isNmeaTerminator b then some i else nmeaFindTerm rest (i + 1)

/-- The NMEA logical string length: index of the first null / CR / LF byte
in the text field, defaulting to 0 (`.unwrap_or(0)`) when no terminator
occurs. -/
def nmeaStringLength (nmea : List Nat) : Nat :=
  (nmeaFindTerm nmea 0).getD 0

/-- `GnssSocket::process_fix`: dispatch on the backend read result and the
frame discriminant.  `result` is the `nrf_recv` return value, `lastError`
the value of `get_last_error()`. -/
def process_fix (result : Int) (frame : GnssDataFrame) (lastError : Int) :
    Except ErrorM (Option GnssDataM) :=
  if result = 0 then
    .ok none
  else if result < 0 then
    if lastError = NRF_EAGAIN then .ok none
    else .error (.nordic "get_fix" result lastError)
  else if frame.data_id = NRF_GNSS_PVT_DATA_ID then
    .ok (some (.position frame.pvt))
  else if frame.data_id = NRF_GNSS_NMEA_DATA_ID then
    let string_length := nmeaStringLength frame.nmea
    if validUtf8 (frame.nmea.take string_length) then
      .ok (some (.nmea frame.nmea string_length))
    else
      .error .badDataFormat
  else if frame.data_id = NRF_GNSS_AGPS_DATA_ID then
    .ok (some (.agps frame.agps))
  else
    .error .badDataFormat

/-- A concrete NMEA frame used as an evaluation point: the 83-byte text
field holds `"$GP"` followed by an embedded null terminator. -/
def sampleNmeaFrame : GnssDataFrame :=
  { data_id := NRF_GNSS_NMEA_DATA_ID
    pvt := ⟨0, 0⟩
    nmea := [36, 71, 80] ++ List.replicate 80 0
    agps := ⟨0⟩ }

/-- `GnssData::is_valid`: true only for `Position` frames with the
fix-valid flag bit set. -/
def GnssDataM.is_valid : GnssDataM → Bool
  | .nmea _ _ => false
  | .position p => (p.flags &&& NRF_GNSS_PVT_FLAG_FIX_VALID_BIT) != 0
  | .agps _ => false

/-! ## Socket options and destructors (`src/raw.rs`, `src/gnss.rs`)

The `NRF_SOL_*` / `NRF_SO_*` numeric codes live in the external
`nrfxlib-sys` crate; this crate only forwards them, so they are modelled as
distinct abstract codes. -/

/-- `NRF_SOL_SECURE` (external constant, abstract code). -/
def NRF_SOL_SECURE : Nat := 1

/-- `NRF_SOL_GNSS` (external constant, abstract code). -/
def NRF_SOL_GNSS : Nat := 2

/-- `NRF_SO_HOSTNAME` (external constant, abstract code). -/
def NRF_SO_HOSTNAME : Nat := 10

/-- `NRF_SO_SEC_PEER_VERIFY` (external constant, abstract code). -/
def NRF_SO_SEC_PEER_VERIFY : Nat := 11

/-- `NRF_SO_SEC_SESSION_CACHE` (external constant, abstract code). -/
def NRF_SO_SEC_SESSION_CACHE : Nat := 12

/-- `NRF_SO_SEC_TAG_LIST` (external constant, abstract code). -/
def NRF_SO_SEC_TAG_LIST : Nat := 13

/-- `NRF_SO_GNSS_FIX_INTERVAL` (external constant, abstract code). -/
def NRF_SO_GNSS_FIX_INTERVAL : Nat := 20

/-- `NRF_SO_GNSS_FIX_RETRY` (external constant, abstract code). -/
def NRF_SO_GNSS_FIX_RETRY : Nat := 21

/-- `NRF_SO_GNSS_NMEA_MASK` (external constant, abstract code). -/
def NRF_SO_GNSS_NMEA_MASK : Nat := 22

/-- `NRF_SO_GNSS_START` (external constant, abstract code). -/
def NRF_SO_GNSS_START : Nat := 23

/-- `NRF_SO_GNSS_STOP` (external constant, abstract code). -/
def NRF_SO_GNSS_STOP : Nat := 24

/-- `SocketOption` from `src/raw.rs` (`nrf_sec_*_t` values are `u32`,
`nrf_gnss_fix_interval_t` / `fix_retry` / `nmea_mask` are `u16`,
`delete_mask` is `u32`). -/
inductive SocketOptionM where
  | tlsHostName (s : List Char)
  | tlsPeerVerify (v : Nat)
  | tlsSessionCache (v : Nat)
  | tlsTagList (tags : List Nat)
  | gnssFixInterval (v : Nat)
  | gnssFixRetry (v : Nat)
  | gnssNmeaMask (v : Nat)
  | gnssStart (mask : Nat)
  | gnssStop
  deriving DecidableEq, Repr

/-- `SocketOption::get_level`. -/
def SocketOptionM.get_level : SocketOptionM → Nat
  | .tlsHostName _ => NRF_SOL_SECURE
  | .tlsPeerVerify _ => NRF_SOL_SECURE
  | .tlsSessionCache _ => NRF_SOL_SECURE
  | .tlsTagList _ => NRF_SOL_SECURE
  | .gnssFixInterval _ => NRF_SOL_GNSS
  | .gnssFixRetry _ => NRF_SOL_GNSS
  | .gnssNmeaMask _ => NRF_SOL_GNSS
  | .gnssStart _ => NRF_SOL_GNSS
  | .gnssStop => NRF_SOL_GNSS

/-- `SocketOption::get_name`. -/
def SocketOptionM.get_name : SocketOptionM → Nat
  | .tlsHostName _ => NRF_SO_HOSTNAME
  | .tlsPeerVerify _ => NRF_SO_SEC_PEER_VERIFY
  | .tlsSessionCache _ => NRF_SO_SEC_SESSION_CACHE
  | .tlsTagList _ => NRF_SO_SEC_TAG_LIST
  | .gnssFixInterval _ => NRF_SO_GNSS_FIX_INTERVAL
  | .gnssFixRetry _ => NRF_SO_GNSS_FIX_RETRY
  | .gnssNmeaMask _ => NRF_SO_GNSS_NMEA_MASK
  | .gnssStart _ => NRF_SO_GNSS_START
  | .gnssStop => NRF_SO_GNSS_STOP

/-- `SocketOption::get_length` (`size_of_val` of the match binding; for
`TlsTagList` the binding is a reference to the slice reference, so
`size_of_val` measures the fat reference: two words). -/
def SocketOptionM.get_length : SocketOptionM → Nat
  | .tlsHostName s => s.length
  | .tlsPeerVerify _ => 4
  | .tlsSessionCache _ => 4
  | .tlsTagList _ => 2 * usize_size
  | .gnssFixInterval _ => 2
  | .gnssFixRetry _ => 2
  | .gnssNmeaMask _ => 2
  | .gnssStart _ => 4
  | .gnssStop => 0

/-- Backend syscalls observable from socket teardown. -/
inductive SysCall where
  | nrf_setsockopt (fd : Int) (level : Nat) (optname : Nat) (optlen : Nat)
  | nrf_close (fd : Int)
  deriving DecidableEq, Repr

/-- The single backend call `Socket::set_option` issues. -/
def set_option_call (fd : Int) (opt : SocketOptionM) : SysCall :=
  .nrf_setsockopt fd opt.get_level opt.get_name opt.get_length

/-- `GnssSocket::stop`: its result (from the backend `nrf_setsockopt`
return and errno) and the backend call it makes. -/
def gnssSocket_stop (fd : Int) (backendRet lastError : Int) :
    Except ErrorM Unit × List SysCall :=
  ((if backendRet < 0 then .error (.nordic "set_option" backendRet lastError)
    else .ok ()),
   [set_option_call fd .gnssStop])

/-- `impl Drop for Socket`: a single `nrf_close`. -/
def socket_drop (fd : Int) : List SysCall := [.nrf_close fd]

/-- `impl Drop for GnssSocket`: `let _ = self.stop();` (result discarded),
then the inner `Socket`'s destructor runs. -/
def gnss_socket_drop (fd : Int) (backendRet lastError : Int) : List SysCall :=
  (gnssSocket_stop fd backendRet lastError).2 ++ socket_drop fd

/-!
# Theorems
-/

/-- C1 (code bug): the spec requires the header word to hold the *total*
allocated size (payload plus header) so that `nrf_modem_os_free` can
reconstruct the layout passed to `allocate_first_fit`.  The code instead
stores only the payload size `num_bytes`: for an allocation of 16 bytes the
first-fit call uses layout `{size 20, align 4}` while the header stores 16
and the free path rebuilds `{size 16, align 4}` — never the allocation's
layout, for any request size. -/
theorem alloc_free_layout_mismatch :
    nrf_modem_os_alloc_layout 16 = ⟨20, 4⟩ ∧
    nrf_modem_os_alloc_header 16 = 16 ∧
    nrf_modem_os_free_layout (nrf_modem_os_alloc_header 16) = ⟨16, 4⟩ ∧
    nrf_modem_os_free_layout (nrf_modem_os_alloc_header 16) ≠
      nrf_modem_os_alloc_layout 16 ∧
    ∀ n : Nat,
      nrf_modem_os_free_layout (nrf_modem_os_alloc_header n) ≠
        nrf_modem_os_alloc_layout n := by
  refine ⟨rfl, rfl, rfl, by decide, ?_⟩
  intro n h
  have hs : n = n + usize_size := congrArg LayoutM.size h
  simp [usize_size] at hs

/-- C2 counterexample: a terminal `"OK"` split across two reads (`"O"` then
`"K\n"`) is not classified as terminal success by `poll_response`; the
first fragment is discarded (each read's final byte is dropped) and the
second is delivered to the sink as the indication `"K"`, leaving the loop
still awaiting data. -/
theorem split_terminal_not_reassembled_cx :
    poll_response [.data ['O'], .data ['K', '\n']] [] = .outOfReads [['K']] ∧
    (poll_response [.data ['O'], .data ['K', '\n']] []).isSuccess = false := by
  exact ⟨by decide, by decide⟩

/-- C2 (amended): `poll_response` carries no partial-line state between
reads — only the accumulated sink-callback history crosses a read
boundary.  Formally, if a prefix of the read sequence leaves the loop still
awaiting data with callback history `acc'`, the whole run continues exactly
as a fresh run of the remaining reads from `acc'`; in particular each
successful read is parsed in isolation. -/
theorem poll_response_stateless_across_reads :
    ∀ (rs1 rs2 : List RecvOut) (acc acc' : List (List Char)),
      poll_response rs1 acc = .outOfReads acc' →
      poll_response (rs1 ++ rs2) acc = poll_response rs2 acc' := by
  intro rs1
  induction rs1 with
  | nil =>
    intro rs2 acc acc' h
    simp only [poll_response] at h
    cases h
    rfl
  | cons head tail ih =>
    intro rs2 acc acc' h
    cases head with
    | eagain =>
      simp only [poll_response, List.cons_append] at h ⊢
      exact ih rs2 acc acc' h
    | fail e =>
      simp only [poll_response] at h
      exact PollOutcome.noConfusion h
    | data bytes =>
      simp only [poll_response, List.cons_append] at h ⊢
      by_cases hb : bytes.length = 0
      · rw [if_pos hb] at h
        exact PollOutcome.noConfusion h
      · rw [if_neg hb] at h ⊢
        rcases hpl : processLines (rustLines (bytes.take (bytes.length - 1))) with
          ⟨term?, cs⟩
        rw [hpl] at h
        match term? with
        | none => exact ih rs2 (acc ++ cs) acc' h
        | some (.ok ()) => exact PollOutcome.noConfusion h
        | some (.error e) => exact PollOutcome.noConfusion h

/-- Witness for C2's amended theorem at a concrete split input. -/
theorem poll_response_stateless_witness :
    poll_response ([.eagain, .data ['O']] ++ [.data ['K', '\n']]) [] =
      poll_response [.data ['K', '\n']] [] :=
  poll_response_stateless_across_reads [.eagain, .data ['O']] [.data ['K', '\n']]
    [] [] (by decide)

/-- C4 counterexample: the claim's would-block condition is "a negative
count with last-error equal to the try-again sentinel", but `Socket::recv`
tests `result == -1` specifically: for backend result `-2` with last-error
`NRF_EAGAIN` the code returns a `Nordic` error, not `None`. -/
theorem recv_negative_eagain_cx :
    socket_recv (-2) NRF_EAGAIN = .error (.nordic "recv" (-2) NRF_EAGAIN) ∧
    ((-2 : Int) < 0 ∧ NRF_EAGAIN = NRF_EAGAIN) ∧
    socket_recv (-2) NRF_EAGAIN ≠ .ok none := by
  refine ⟨rfl, by decide, fun h => ?_⟩
  exact Except.noConfusion h

/-- C4 (amended): `Socket::recv` returns `None` exactly when the backend
returned `-1` *and* the last-error value equals `NRF_EAGAIN`; a
non-negative count `n` yields `Some n`, and any other negative result
yields the `Nordic` error carrying the operation name `"recv"`, the return
code and the last-error value. -/
theorem recv_none_iff_minus_one_eagain :
    ∀ result lastError : Int,
      (socket_recv result lastError = .ok none ↔
        result = -1 ∧ lastError = NRF_EAGAIN) ∧
      (0 ≤ result → socket_recv result lastError = .ok (some result)) ∧
      (result < 0 → ¬(result = -1 ∧ lastError = NRF_EAGAIN) →
        socket_recv result lastError = .error (.nordic "recv" result lastError)) := by
  intro r e
  unfold socket_recv
  split_ifs with h1 h2
  · refine ⟨⟨fun _ => h1, fun _ => rfl⟩, fun hr => ?_, fun _ hna => absurd h1 hna⟩
    exact absurd hr (by omega)
  · refine ⟨⟨fun h => ?_, fun h => absurd h h1⟩, fun hr => absurd hr (by omega),
      fun _ _ => rfl⟩
    exact absurd h (by simp)
  · refine ⟨⟨fun h => ?_, fun h => absurd h h1⟩, fun _ => rfl,
      fun hr _ => absurd hr h2⟩
    exact absurd h (by simp)

/-- Witness for C4's amended theorem at concrete inputs. -/
theorem recv_none_iff_witness :
    socket_recv (-1) NRF_EAGAIN = .ok none ∧
    socket_recv 5 0 = .ok (some 5) ∧
    socket_recv (-1) 7 = .error (.nordic "recv" (-1) 7) :=
  ⟨(recv_none_iff_minus_one_eagain (-1) NRF_EAGAIN).1.mpr ⟨rfl, rfl⟩,
   (recv_none_iff_minus_one_eagain 5 0).2.1 (by decide),
   (recv_none_iff_minus_one_eagain (-1) 7).2.2 (by decide) (by decide)⟩

/-- C6 counterexample: a successful read of zero bytes makes
`poll_response` evaluate `&buf[0..length - 1]` with `length = 0`, an index
underflow — a panic, contradicting the claim that `poll_response` does not
panic for any byte count a read may return. -/
theorem poll_response_zero_read_panics_cx :
    poll_response [.data []] [] = .panicked [] := by
  decide

/-- C6 (amended): apart from the zero-byte-read underflow, `poll_response`
returns a typed outcome and never panics: for every read sequence in which
each successful read delivers at least one byte, the `panicked` outcome is
unreachable. -/
theorem poll_response_no_panic_on_nonempty_reads :
    ∀ (reads : List RecvOut) (acc cs : List (List Char)),
      (∀ s, RecvOut.data s ∈ reads → s ≠ []) →
      poll_response reads acc ≠ .panicked cs := by
  intro reads
  induction reads with
  | nil =>
    intro acc cs _ h
    simp only [poll_response] at h
    exact PollOutcome.noConfusion h
  | cons head tail ih =>
    intro acc cs hne h
    cases head with
    | eagain =>
      simp only [poll_response] at h
      exact ih acc cs (fun s hs => hne s (List.mem_cons_of_mem _ hs)) h
    | fail e =>
      simp only [poll_response] at h
      exact PollOutcome.noConfusion h
    | data bytes =>
      have hb : bytes ≠ [] := hne bytes (List.mem_cons_self _ _)
      simp only [poll_response] at h
      rw [if_neg (by simpa using hb)] at h
      rcases hpl : processLines (rustLines (bytes.take (bytes.length - 1))) with
        ⟨term?, csb⟩
      rw [hpl] at h
      match term? with
      | none =>
        exact ih (acc ++ csb) cs (fun s hs => hne s (List.mem_cons_of_mem _ hs)) h
      | some (.ok ()) => exact PollOutcome.noConfusion h
      | some (.error e) => exact PollOutcome.noConfusion h

/-- Witness for C6's amended theorem at a concrete read sequence. -/
theorem poll_response_no_panic_witness :
    poll_response [.data ['O', 'K', '\n']] [] ≠ .panicked [] :=
  poll_response_no_panic_on_nonempty_reads [.data ['O', 'K', '\n']] [] []
    (by intro s hs; rw [List.mem_singleton] at hs; cases hs; decide)

/-- C8: `GnssData::is_valid` holds exactly for the position variant with
the fix-valid bit (bit 0 of `flags`) set; NMEA text and AGPS records, and
position records with the bit clear, are not valid fixes even though they
decoded successfully. -/
theorem is_valid_iff_position_fix_bit :
    (∀ d : GnssDataM, d.is_valid = true ↔
      ∃ p, d = .position p ∧ p.flags.testBit 0 = true) ∧
    (∀ buffer length, (GnssDataM.nmea buffer length).is_valid = false) ∧
    (∀ a, (GnssDataM.agps a).is_valid = false) := by
  refine ⟨fun d => ?_, fun _ _ => rfl, fun _ => rfl⟩
  cases d with
  | nmea buffer length => simp [GnssDataM.is_valid]
  | agps a => simp [GnssDataM.is_valid]
  | position p =>
    simp only [GnssDataM.is_valid, NRF_GNSS_PVT_FLAG_FIX_VALID_BIT,
      Nat.and_one_is_mod, bne_iff_ne, ne_eq, Nat.testBit_zero]
    constructor
    · intro hmod
      exact ⟨p, rfl, by simp [Nat.testBit_zero]; omega⟩
    · rintro ⟨q, hq, hbit⟩
      cases hq
      simp [Nat.testBit_zero] at hbit
      omega

/-- C10: dropping a `GnssSocket` first issues the GNSS-stop option-set
(`nrf_setsockopt` at level `NRF_SOL_GNSS`, name `NRF_SO_GNSS_STOP`, zero
length) on the socket — with the stop result discarded, whatever the
backend returned — and only then the inner `Socket` destructor's single
`nrf_close`; dropping a plain `Socket` performs only the close. -/
theorem gnss_drop_stops_then_closes :
    ∀ (fd backendRet lastError : Int),
      gnss_socket_drop fd backendRet lastError =
        [SysCall.nrf_setsockopt fd NRF_SOL_GNSS NRF_SO_GNSS_STOP 0,
         SysCall.nrf_close fd] ∧
      socket_drop fd = [SysCall.nrf_close fd] := by
  intro fd r e
  exact ⟨rfl, rfl⟩

/-- Helper: the for-loop over one buffer's lines delivers to the callback
exactly the trimmed lines (in order) strictly before the first
non-indication line, and the terminal outcome is that first non-indication
line's class. -/
theorem processLines_spec :
    ∀ ls : List (List Char),
      (processLines ls).2 =
        (ls.map rustTrim).takeWhile (fun t => (classify_line t).isInd) ∧
      (processLines ls).1 =
        ((ls.map rustTrim).dropWhile (fun t => (classify_line t).isInd)).head?.map
          (fun t => (classify_line t).terminal) := by
  intro ls
  induction ls with
  | nil => exact ⟨rfl, rfl⟩
  | cons l ls ih =>
    simp only [processLines, List.map_cons, List.takeWhile_cons, List.dropWhile_cons]
    rcases hc : classify_line (rustTrim l) with _ | _ | n | n | _ <;>
      simp [hc, LineClass.isInd, LineClass.terminal, ih.1, ih.2]

/-- C3: `poll_response` classifies each trimmed line as follows: exactly
`"OK"` is terminal success; exactly `"ERROR"` is generic terminal failure;
a `"+CME ERROR:"`-prefixed line is a terminal failure carrying the numeric
sub-code parsed from the remainder (`-1` when unparsable) in the
mobile-equipment (`CmeError`) namespace; `"+CMS ERROR:"` likewise in the
message-service (`CmsError`) namespace; every other line is an indication:
it is handed to the sink in original order and never treated as terminal,
and the sink is never invoked for the terminal line itself (the callback
list is exactly the indication lines preceding the first terminal line). -/
theorem at_line_classification :
    classify_line okChars = .okL ∧
    classify_line errorChars = .errL ∧
    (∀ rest : List Char,
      classify_line (cmeTag ++ rest) =
        .cmeL ((parse_i32 (rustTrim rest)).getD (-1))) ∧
    (∀ rest : List Char,
      classify_line (cmsTag ++ rest) =
        .cmsL ((parse_i32 (rustTrim rest)).getD (-1))) ∧
    classify_line ("+CME ERROR: 3".toList) = .cmeL 3 ∧
    classify_line ("+CMS ERROR: 311".toList) = .cmsL 311 ∧
    classify_line ("+CME ERROR: x".toList) = .cmeL (-1) ∧
    (∀ line : List Char,
      classify_line line = .ind ↔
        line ≠ okChars ∧ line ≠ errorChars ∧
        cmeTag.isPrefixOf line = false ∧ cmsTag.isPrefixOf line = false) ∧
    (∀ ls : List (List Char),
      (processLines ls).2 =
        (ls.map rustTrim).takeWhile (fun t => (classify_line t).isInd) ∧
      (processLines ls).1 =
        ((ls.map rustTrim).dropWhile (fun t => (classify_line t).isInd)).head?.map
          (fun t => (classify_line t).terminal)) := by
  have hlenOK : okChars.length = 2 := by decide
  have hlenERR : errorChars.length = 5 := by decide
  have hlenCME : cmeTag.length = 11 := by decide
  have hlenCMS : cmsTag.length = 11 := by decide
  have hne : ∀ (p rest : List Char), p.length = 11 →
      p ++ rest ≠ okChars ∧ p ++ rest ≠ errorChars := by
    intro p rest hp
    constructor <;> intro h <;>
      [have := congrArg List.length h; have := congrArg List.length h] <;>
      simp only [List.length_append, hp, hlenOK, hlenERR] at this <;> omega
  refine ⟨rfl, rfl, ?_, ?_, by decide, by decide, by decide, ?_, processLines_spec⟩
  · intro rest
    have hno := hne cmeTag rest hlenCME
    have hpre : cmeTag.isPrefixOf (cmeTag ++ rest) = true := by
      rw [ List.isPrefixOf_iff_prefix]
      exact List.prefix_append _ _
    unfold classify_line
    rw [if_neg hno.1, if_neg hno.2, if_pos hpre]
    rw [show (11 : Nat) = cmeTag.length from hlenCME.symm, List.drop_left]
  · intro rest
    have hno := hne cmsTag rest hlenCMS
    have hpre : cmsTag.isPrefixOf (cmsTag ++ rest) = true := by
      rw [ List.isPrefixOf_iff_prefix]
      exact List.prefix_append _ _
    have hnotcme : ¬(cmeTag.isPrefixOf (cmsTag ++ rest) = true) := by
      rw [ List.isPrefixOf_iff_prefix]
      intro h
      have htake := List.prefix_iff_eq_take.mp h
      rw [hlenCME, show (11 : Nat) = cmsTag.length from hlenCMS.symm,
        List.take_left] at htake
      exact absurd htake (by decide)
    unfold classify_line
    rw [if_neg hno.1, if_neg hno.2, if_neg hnotcme, if_pos hpre]
    rw [show (11 : Nat) = cmsTag.length from hlenCMS.symm, List.drop_left]
  · intro line
    unfold classify_line
    split_ifs with h1 h2 h3 h4 <;>
      simp_all [ List.isPrefixOf_iff_prefix, Bool.eq_false_iff]

/-- Helper: for nonzero `m`, `tz m` is the position of the lowest set bit:
that bit is set and all lower bits are clear. -/
theorem tz_spec :
    ∀ m : Nat, m ≠ 0 →
      m.testBit (tz m) = true ∧ ∀ j, j < tz m → m.testBit j = false := by
  intro m
  induction m using Nat.strong_induction_on with
  | _ m ih =>
    intro hm
    rw [tz.eq_def, if_neg hm]
    by_cases hodd : m % 2 = 1
    · rw [if_pos hodd]
      exact ⟨by simp [Nat.testBit_zero, hodd], fun j hj => absurd hj (by omega)⟩
    · rw [if_neg hodd]
      have hm2 : m / 2 ≠ 0 := by omega
      have hrec := ih (m / 2) (by omega) hm2
      constructor
      · rw [Nat.testBit_succ]
        exact hrec.1
      · intro j hj
        cases j with
        | zero => simp [Nat.testBit_zero]; omega
        | succ j' =>
          rw [Nat.testBit_succ]
          exact hrec.2 j' (by omega)

/-- Helper: the effect of `bitmask ^= 1 << i` on each bit. -/
theorem testBit_xor_lowbit (m i j : Nat) :
    (m ^^^ (1 <<< i)).testBit j =
      if j = i then !(m.testBit i) else m.testBit j := by
  rw [Nat.testBit_xor, Nat.one_shiftLeft]
  by_cases hj : j = i
  · subst hj
    simp [Nat.testBit_two_pow_self, Bool.xor_comm]
  · rw [if_neg hj, Nat.testBit_two_pow_of_ne (fun h => hj h.symm)]
    simp

/-- Helper: clearing a set bit strictly decreases the mask (the loop
variant of `ipc_irq_handler`'s while-loop). -/
theorem xor_lowbit_lt (m i : Nat) (h : m.testBit i = true) :
    m ^^^ (1 <<< i) < m := by
  apply Nat.lt_of_testBit i
  · rw [testBit_xor_lowbit, if_pos rfl, h]
    rfl
  · exact h
  · intro j hj
    rw [testBit_xor_lowbit, if_neg (by omega)]

/-- Helper: with enough fuel, the clear-loop visits exactly the set bits of
the mask. -/
theorem clearSeqFuel_mem :
    ∀ (fuel m : Nat), m ≤ fuel →
      ∀ i, i ∈ clearSeqFuel fuel m ↔ m.testBit i = true := by
  intro fuel
  induction fuel with
  | zero =>
    intro m hm i
    have : m = 0 := by omega
    subst this
    simp [clearSeqFuel, Nat.zero_testBit]
  | succ fuel ih =>
    intro m hm i
    by_cases h0 : m = 0
    · subst h0
      simp [clearSeqFuel, Nat.zero_testBit]
    · have htz := tz_spec m h0
      have hlt : m ^^^ (1 <<< tz m) < m := xor_lowbit_lt m (tz m) htz.1
      have hih := ih (m ^^^ (1 <<< tz m)) (by omega) i
      simp only [clearSeqFuel, if_neg h0, List.mem_cons]
      constructor
      · rintro (rfl | hmem)
        · exact htz.1
        · have hb := hih.mp hmem
          rw [testBit_xor_lowbit] at hb
          by_cases hi : i = tz m
          · rw [if_pos hi, htz.1] at hb
            exact absurd hb (by simp)
          · rwa [if_neg hi] at hb
      · intro hbit
        by_cases hi : i = tz m
        · exact Or.inl hi
        · refine Or.inr (hih.mpr ?_)
          rw [testBit_xor_lowbit, if_neg hi]
          exact hbit

/-- Helper: the clear-loop visits bit indices in strictly increasing order
(lowest set bit first). -/
theorem clearSeqFuel_sorted :
    ∀ (fuel m : Nat), m ≤ fuel → (clearSeqFuel fuel m).Pairwise (· < ·) := by
  intro fuel
  induction fuel with
  | zero =>
    intro m hm
    have : m = 0 := by omega
    subst this
    simp [clearSeqFuel]
  | succ fuel ih =>
    intro m hm
    by_cases h0 : m = 0
    · subst h0
      simp [clearSeqFuel]
    · have htz := tz_spec m h0
      have hlt : m ^^^ (1 <<< tz m) < m := xor_lowbit_lt m (tz m) htz.1
      simp only [clearSeqFuel, if_neg h0]
      refine List.Pairwise.cons ?_ (ih _ (by omega))
      intro i hi
      have hb := (clearSeqFuel_mem fuel _ (by omega) i).mp hi
      rw [testBit_xor_lowbit] at hb
      by_cases heq : i = tz m
      · rw [if_pos heq, htz.1] at hb
        exact absurd hb (by simp)
      · rw [if_neg heq] at hb
        rcases Nat.lt_trichotomy (tz m) i with h | h | h
        · exact h
        · exact absurd h.symm heq
        · exact absurd hb (by rw [htz.2 i h]; simp)

/-- C5: for every pending-event bitmask and stored context, the IPC
interrupt entry point clears exactly the set bits of the mask (writing the
corresponding event register to zero for each, iterating from the lowest
set bit upwards), and only then invokes the registered handler, exactly
once, with the full original bitmask and the context pointer — the handler
call is the single call action of the trace and its last element. -/
theorem ipc_irq_clears_all_bits_then_calls_handler :
    ∀ (events_map context : Nat),
      (∀ i, IpcAction.clearEvent i ∈ ipc_irq_handler events_map context ↔
        events_map.testBit i = true) ∧
      (ipc_irq_handler events_map context).filter IpcAction.isCall =
        [IpcAction.callHandler events_map context] ∧
      (ipc_irq_handler events_map context).getLast? =
        some (IpcAction.callHandler events_map context) ∧
      (clearSeq events_map).Pairwise (· < ·) := by
  intro m ctx
  refine ⟨fun i => ?_, ?_, ?_, clearSeqFuel_sorted m m (Nat.le_refl m)⟩
  · simp only [ipc_irq_handler, List.mem_append, List.mem_map,
      List.mem_singleton]
    constructor
    · rintro (⟨x, hx, hxi⟩ | h)
      · cases hxi
        exact (clearSeqFuel_mem m m (Nat.le_refl m) _).mp hx
      · exact absurd h (by simp)
    · intro hbit
      exact Or.inl ⟨i, (clearSeqFuel_mem m m (Nat.le_refl m) i).mpr hbit, rfl⟩
  · rw [ipc_irq_handler, List.filter_append, List.filter_map]
    have hcomp : (IpcAction.isCall ∘ IpcAction.clearEvent) = fun _ => false := by
      funext x
      rfl
    rw [hcomp]
    simp [IpcAction.isCall]
  · rw [ipc_irq_handler, List.getLast?_concat]

/-- Helper: the enumerate-and-find scan is the scan from index 0 shifted
by the starting index. -/
theorem nmeaFindTerm_shift :
    ∀ (l : List Nat) (i : Nat),
      nmeaFindTerm l i = (nmeaFindTerm l 0).map (· + i) := by
  intro l
  induction l with
  | nil => intro i; rfl
  | cons b rest ih =>
    intro i
    simp only [nmeaFindTerm]
    by_cases hb : isNmeaTerminator b = true
    · rw [if_pos hb, if_pos hb]
      simp
    · rw [if_neg hb, if_neg hb, ih (i + 1), ih 1, Option.map_map]
      cases nmeaFindTerm rest 0 with
      | none => rfl
      | some k =>
        show some (k + (i + 1)) = some (k + 1 + i)
        congr 1
        omega

/-- Helper: when the scan from index 0 finds index `k`, `k` is in range,
the byte there is a terminator and no earlier byte is; when it finds
nothing, no byte of the list is a terminator. -/
theorem nmeaFindTerm_zero_spec :
    ∀ l : List Nat,
      (∀ k, nmeaFindTerm l 0 = some k →
        k < l.length ∧
        (∃ a, l.get? k = some a ∧ isNmeaTerminator a = true) ∧
        (∀ j a', j < k → l.get? j = some a' → isNmeaTerminator a' = false)) ∧
      (nmeaFindTerm l 0 = none → ∀ a ∈ l, isNmeaTerminator a = false) := by
  intro l
  induction l with
  | nil =>
    exact ⟨fun k h => Option.noConfusion h, fun _ a ha => absurd ha (by simp)⟩
  | cons b rest ih =>
    simp only [nmeaFindTerm]
    by_cases hb : isNmeaTerminator b = true
    · rw [if_pos hb]
      refine ⟨fun k h => ?_, fun h => Option.noConfusion h⟩
      cases h
      exact ⟨by simp, ⟨b, rfl, hb⟩, fun j a' hj => absurd hj (by omega)⟩
    · rw [if_neg hb]
      rw [nmeaFindTerm_shift rest 1]
      constructor
      · intro k h
        cases hr : nmeaFindTerm rest 0 with
        | none => rw [hr] at h; exact Option.noConfusion h
        | some k' =>
          rw [hr] at h
          have hk : k = k' + 1 := by simpa using h.symm
          subst hk
          have hspec := (ih.1 k' hr)
          refine ⟨by simp; omega, ?_, ?_⟩
          · rcases hspec.2.1 with ⟨a, ha, hterm⟩
            exact ⟨a, by simpa using ha, hterm⟩
          · intro j a' hj hget
            cases j with
            | zero =>
              simp only [List.get?_cons_zero] at hget
              cases hget
              simpa using hb
            | succ j' =>
              simp only [List.get?_cons_succ] at hget
              exact hspec.2.2 j' a' (by omega) hget
      · intro h a ha
        cases hr : nmeaFindTerm rest 0 with
        | some k' => rw [hr] at h; exact Option.noConfusion h
        | none =>
          rcases List.mem_cons.mp ha with rfl | hmem
          · simpa using hb
          · exact ih.2 hr a hmem

/-- C7: for a frame with the NMEA (text) discriminant delivered by a
positive read, the decoder takes the logical string length to be the index
of the first null / CR / LF byte of the 83-byte text field (that byte
excluded: all bytes before the length are non-terminators, and the byte at
the length — when the length is nonzero — is a terminator), defaulting to
0 when no terminator occurs anywhere; the prefix of that length is then
validated as UTF-8, yielding the text record on success and the
`BadDataFormat` decode error (not a truncated record) on failure. -/
theorem nmea_decode_spec :
    ∀ (frame : GnssDataFrame) (result lastError : Int),
      frame.data_id = NRF_GNSS_NMEA_DATA_ID → 0 < result →
      frame.nmea.length = 83 →
      ((nmeaStringLength frame.nmea < 83 ∧
        (∃ a, frame.nmea.get? (nmeaStringLength frame.nmea) = some a ∧
          isNmeaTerminator a = true) ∧
        (∀ j a', j < nmeaStringLength frame.nmea →
          frame.nmea.get? j = some a' → isNmeaTerminator a' = false)) ∨
       (nmeaStringLength frame.nmea = 0 ∧
        ∀ a ∈ frame.nmea, isNmeaTerminator a = false)) ∧
      (validUtf8 (frame.nmea.take (nmeaStringLength frame.nmea)) = true →
        process_fix result frame lastError =
          .ok (some (.nmea frame.nmea (nmeaStringLength frame.nmea)))) ∧
      (validUtf8 (frame.nmea.take (nmeaStringLength frame.nmea)) = false →
        process_fix result frame lastError = .error .badDataFormat) := by
  intro frame result lastError hid hres hlen
  have hstep : process_fix result frame lastError =
      (if validUtf8 (frame.nmea.take (nmeaStringLength frame.nmea)) = true
       then .ok (some (.nmea frame.nmea (nmeaStringLength frame.nmea)))
       else .error .badDataFormat) := by
    unfold process_fix
    rw [if_neg (show ¬(result = 0) by omega),
      if_neg (show ¬(result < 0) by omega),
      if_neg (show ¬(frame.data_id = NRF_GNSS_PVT_DATA_ID) by rw [hid]; decide),
      if_pos hid]
  refine ⟨?_, fun hv => by rw [hstep, if_pos hv],
    fun hv => by rw [hstep, if_neg (by simp [hv])]⟩
  unfold nmeaStringLength
  cases hr : nmeaFindTerm frame.nmea 0 with
  | none =>
    exact Or.inr ⟨rfl, (nmeaFindTerm_zero_spec frame.nmea).2 hr⟩
  | some k =>
    have hspec := (nmeaFindTerm_zero_spec frame.nmea).1 k hr
    exact Or.inl ⟨by rw [← hlen]; exact hspec.1, by simpa using hspec.2.1,
      by simpa using hspec.2.2⟩

/-- Witness for C7 at a concrete frame: `"$GP"` followed by an embedded
null in the 83-byte field decodes to a text record of length 3. -/
theorem nmea_decode_witness :
    nmeaStringLength sampleNmeaFrame.nmea = 3 ∧
    process_fix 1 sampleNmeaFrame 0 =
      .ok (some (.nmea sampleNmeaFrame.nmea 3)) := by
  refine ⟨by decide, ?_⟩
  have h := (nmea_decode_spec sampleNmeaFrame 1 0 rfl (by decide)
    (by decide)).2.1 (by decide)
  rw [show nmeaStringLength sampleNmeaFrame.nmea = 3 from by decide] at h
  exact h

/-- Helper: the copy-back loop preserves the length of the poll list. -/
theorem copyResults_length :
    ∀ (entries : List PollEntryM) (returned : Nat → Int) (i : Nat),
      (copyResults entries returned i).length = entries.length := by
  intro entries
  induction entries with
  | nil => intro returned i; rfl
  | cons e es ih =>
    intro returned i
    simp only [copyResults, List.length_cons, ih]

/-- Helper: the `k`-th entry after the copy-back loop keeps its fd and
flags and receives the backend's `returned` mask for slot `i + k`,
sign-extended from `i16` to `u32`. -/
theorem copyResults_get :
    ∀ (entries : List PollEntryM) (returned : Nat → Int) (i k : Nat)
      (h : k < entries.length),
      ∃ h2 : k < (copyResults entries returned i).length,
        (copyResults entries returned i).get ⟨k, h2⟩ =
          { entries.get ⟨k, h⟩ with
              result := ((returned (i + k)) % (2 ^ 32 : Int)).toNat } := by
  intro entries
  induction entries with
  | nil =>
    intro returned i k h
    exact absurd h (by simp)
  | cons e es ih =>
    intro returned i k h
    cases k with
    | zero =>
      refine ⟨by simp [copyResults], ?_⟩
      simp [copyResults]
    | succ k' =>
      have hk : k' < es.length := by simpa using h
      rcases ih returned (i + 1) k' hk with ⟨h2, hget⟩
      refine ⟨by simpa [copyResults] using h2, ?_⟩
      simpa [copyResults, Nat.add_assoc, Nat.add_comm 1 k'] using hget

/-- C9: `poll` returns the `TooManySockets` resource-limit error without
invoking the backend when the poll list holds more than the fixed capacity
of 8 entries; otherwise it calls the backend exactly once and: a timeout
(backend 0) yields the non-error result 0, backend `-1` yields the
`Nordic` error carrying the last-error value, and a positive backend
result is returned as-is with each entry's result replaced by the
backend's returned event mask for its slot. -/
theorem poll_limit_timeout_error_copyback :
    ∀ (pl : List PollEntryM) (b : NrfPollBackend) (e : Int),
      (pl.length > 8 → poll pl b e = (.error .tooManySockets, pl, 0)) ∧
      (pl.length ≤ 8 → b.ret = 0 → poll pl b e = (.ok 0, pl, 1)) ∧
      (pl.length ≤ 8 → b.ret = -1 →
        poll pl b e = (.error (.nordic "poll" (-1) e), pl, 1)) ∧
      (pl.length ≤ 8 → 0 < b.ret →
        (poll pl b e).1 = .ok b.ret ∧ (poll pl b e).2.2 = 1 ∧
        ∀ k (h : k < pl.length),
          ∃ h2 : k < (poll pl b e).2.1.length,
            (poll pl b e).2.1.get ⟨k, h2⟩ =
              { pl.get ⟨k, h⟩ with
                  result := ((b.returned k) % (2 ^ 32 : Int)).toNat }) := by
  intro pl b e
  refine ⟨fun hlen => ?_, fun hlen h0 => ?_, fun hlen hm1 => ?_,
    fun hlen hpos => ?_⟩
  · unfold poll
    rw [if_pos (by simpa [MAX_SOCKETS_POLL] using hlen)]
  · unfold poll
    rw [if_neg (by simp [MAX_SOCKETS_POLL]; omega), if_neg (by omega), if_pos h0]
  · unfold poll
    rw [if_neg (by simp [MAX_SOCKETS_POLL]; omega), if_pos hm1]
  · have hunf : poll pl b e =
        (.ok b.ret, copyResults pl b.returned 0, 1) := by
      unfold poll
      rw [if_neg (by simp [MAX_SOCKETS_POLL]; omega), if_neg (by omega),
        if_neg (by omega)]
    rw [hunf]
    refine ⟨rfl, rfl, fun k h => ?_⟩
    rcases copyResults_get pl b.returned 0 k h with ⟨h2, hget⟩
    rw [Nat.zero_add] at hget
    exact ⟨h2, hget⟩

/-- Witness for C9 at concrete inputs exercising each branch. -/
theorem poll_witness :
    poll (List.replicate 9 ⟨0, 0, 0⟩) ⟨0, fun _ => 0⟩ 0 =
      (.error .tooManySockets, List.replicate 9 ⟨0, 0, 0⟩, 0) ∧
    poll [⟨3, 1, 0⟩] ⟨0, fun _ => 0⟩ 0 = (.ok 0, [⟨3, 1, 0⟩], 1) ∧
    poll [⟨3, 1, 0⟩] ⟨-1, fun _ => 0⟩ 7 =
      (.error (.nordic "poll" (-1) 7), [⟨3, 1, 0⟩], 1) ∧
    (poll [⟨3, 1, 0⟩] ⟨1, fun _ => 5⟩ 0).1 = .ok 1 :=
  ⟨(poll_limit_timeout_error_copyback (List.replicate 9 ⟨0, 0, 0⟩)
      ⟨0, fun _ => 0⟩ 0).1 (by decide),
   (poll_limit_timeout_error_copyback [⟨3, 1, 0⟩] ⟨0, fun _ => 0⟩ 0).2.1
      (by decide) rfl,
   (poll_limit_timeout_error_copyback [⟨3, 1, 0⟩] ⟨-1, fun _ => 0⟩ 7).2.2.1
      (by decide) rfl,
   ((poll_limit_timeout_error_copyback [⟨3, 1, 0⟩] ⟨1, fun _ => 5⟩ 0).2.2.2
      (by decide) (by decide)).1⟩

end Nrfxlib
